import Mathlib

/-!
Shallow embedding of the token-bucket rate limiter (src/limiter.py and the
check command of src/cli.py).

Python dictionaries are modelled as association lists with Python insertion
semantics: updating an existing key rewrites it in place, a new key is
appended; lookup returns the first binding.  Python floats are modelled as
rationals, `time.time()` becomes an explicit `now` argument, and the two
persistence files become `savedConfig` / `savedState` fields that `_save_config`
and `_save_state` copy the in-memory mappings into.  A policy value loaded from
the config document is `Option Policy`: `none` stands for an empty or null
policy object (falsy in Python), `some p` for an object carrying `capacity`
and `refill_rate`.  Exceptions (`RateLimitExceeded`, the unguarded `KeyError`
of the bucket lookup in `check`) become explicit result constructors.
-/

namespace ToolRateLimiter

/-- A tool's admission policy: `capacity` and `refill_rate`, as stored in the
policy document. -/
structure Policy where
  capacity : ℚ
  refill_rate : ℚ
deriving DecidableEq

/-- Token bucket state for one `tool:user` key. -/
structure Bucket where
  tokens : ℚ
  last_refill : ℚ
deriving DecidableEq

/-- The policy mapping: tool name to policy value (`none` models an empty or
null policy object in an externally written document). -/
abbrev Config := List (String × Option Policy)

/-- The bucket mapping: composite `tool:user` key to bucket. -/
abbrev BucketMap := List (String × Bucket)

/-- Dictionary lookup: first binding of the key, `none` when absent. -/
def dictGet {β : Type} : List (String × β) → String → Option β
  | [], _ => none
  | (k, v) :: rest, key => if k = key then some v else dictGet rest key

/-- Dictionary update with Python semantics: overwrite the first binding of an
existing key in place, append a new key at the end. -/
def dictSet {β : Type} : List (String × β) → String → β → List (String × β)
  | [], key, val => [(key, val)]
  | (k, v) :: rest, key, val =>
      if k = key then (key, val) :: rest else (k, v) :: dictSet rest key val

/-- `RateLimiter` state: in-memory `config` and `state` plus the durable copies
held in the two files. -/
structure RateLimiter where
  config : Config
  state : BucketMap
  savedConfig : Config
  savedState : BucketMap
deriving DecidableEq

/-- `RateLimiter.__init__`: both mappings are loaded from their files, so the
in-memory and durable copies coincide at construction. -/
def RateLimiter.load (config : Config) (state : BucketMap) : RateLimiter :=
  ⟨config, state, config, state⟩

/-- `RateLimiter._get_bucket_key`. -/
def getBucketKey (tool user : String) : String :=
  tool ++ ":" ++ user

/-- `RateLimiter._refill_bucket`.  Early return when the tool's config entry is
absent or falsy; create a full bucket when the key is new; otherwise apply the
elapsed-time refill (note: `elapsed` is used exactly as computed, with no lower
clamp). -/
def refillBucket (rl : RateLimiter) (tool user : String) (now : ℚ) : RateLimiter :=
  let bucket_key := getBucketKey tool user
  match dictGet rl.config tool with
  | none => rl
  | some none => rl
  | some (some tool_config) =>
    match dictGet rl.state bucket_key with
    | none =>
        { rl with state := dictSet rl.state bucket_key ⟨tool_config.capacity, now⟩ }
    | some bucket =>
        let elapsed := now - bucket.last_refill
        let new_tokens := bucket.tokens + elapsed * tool_config.refill_rate
        { rl with state :=
            dictSet rl.state bucket_key ⟨min new_tokens tool_config.capacity, now⟩ }

/-- Outcome of `RateLimiter.check`: the boolean decision, the
`RateLimitExceeded` raise for an unknown tool, or the unguarded `KeyError` of
the bucket lookup. -/
inductive CheckResult where
  | allowed
  | denied
  | unknownTool
  | keyError
deriving DecidableEq

/-- `RateLimiter.check`.  The limiter is returned alongside the result even on
an exception, mirroring the mutations left behind on `self` when a raise
escapes. -/
def check (rl : RateLimiter) (tool user : String) (now : ℚ) :
    CheckResult × RateLimiter :=
  if dictGet rl.config tool = none then (.unknownTool, rl)
  else
    let rl1 := refillBucket rl tool user now
    let bucket_key := getBucketKey tool user
    match dictGet rl1.state bucket_key with
    | none => (.keyError, rl1)
    | some bucket =>
        if 1 ≤ bucket.tokens then
          let st := dictSet rl1.state bucket_key ⟨bucket.tokens - 1, bucket.last_refill⟩
          (.allowed, { rl1 with state := st, savedState := st })
        else
          (.denied, rl1)

/-- `RateLimiter.set_limit`: overwrite the tool's policy and persist the config
document. -/
def set_limit (rl : RateLimiter) (tool : String) (capacity refill_rate : ℚ) :
    RateLimiter :=
  let config := dictSet rl.config tool (some ⟨capacity, refill_rate⟩)
  { rl with config := config, savedConfig := config }

/-- `RateLimiter.reset`: drop every bucket and persist the empty mapping. -/
def reset (rl : RateLimiter) : RateLimiter :=
  { rl with state := [], savedState := [] }

/-- One entry of the `status` report. -/
structure ToolStatus where
  capacity : ℚ
  refill_rate : ℚ
  users : List (String × ℚ)
deriving DecidableEq

/-- Exceptions `status` can raise: the unguarded `tool_config["capacity"]`
access on a falsy policy value, or the two-element unpack of
`bucket_key.split(":", 1)` on a key without a colon. -/
inductive StatusErr where
  | configKeyError
  | splitError
deriving DecidableEq

/-- `bucket_key.split(":", 1)` when it yields exactly two parts: split at the
first colon only; `none` when the string has no colon. -/
def splitFirstAux : List Char → List Char → Option (String × String)
  | [], _ => none
  | c :: rest, acc =>
      if c = ':' then some (⟨acc.reverse⟩, ⟨rest⟩)
      else splitFirstAux rest (c :: acc)

/-- Split a composite bucket key at its first colon. -/
def splitFirstColon (s : String) : Option (String × String) :=
  splitFirstAux s.data []

/-- First loop of `RateLimiter.status`: one report entry per config item, users
initially empty; raises on a falsy policy value. -/
def statusConfigLoop : Config → Except StatusErr (List (String × ToolStatus))
  | [] => .ok []
  | (_, none) :: _ => .error .configKeyError
  | (tool, some tc) :: rest => do
      let r ← statusConfigLoop rest
      .ok ((tool, ⟨tc.capacity, tc.refill_rate, []⟩) :: r)

/-- Second loop of `RateLimiter.status`: attribute each bucket entry by
splitting its key at the first colon, recording the stored token count under
the user part when the tool part is in the report. -/
def statusStateLoop :
    BucketMap → List (String × ToolStatus) → Except StatusErr (List (String × ToolStatus))
  | [], result => .ok result
  | (bucket_key, bucket_data) :: rest, result =>
      match splitFirstColon bucket_key with
      | none => .error .splitError
      | some (tool, user) =>
          match dictGet result tool with
          | none => statusStateLoop rest result
          | some ts =>
              statusStateLoop rest
                (dictSet result tool
                  { ts with users := dictSet ts.users user bucket_data.tokens })

/-- `RateLimiter.status`: build the per-tool report, then attribute the stored
bucket entries.  No refill is computed and the limiter is not touched. -/
def status (rl : RateLimiter) : Except StatusErr (List (String × ToolStatus)) := do
  let result ← statusConfigLoop rl.config
  statusStateLoop rl.state result

/-- `cmd_check` of src/cli.py: exit code 0 for allowed, 1 for denied, 2 for the
caught `RateLimitExceeded`; `none` models the uncaught `KeyError` escaping the
command handler. -/
def cmd_check (rl : RateLimiter) (tool user : String) (now : ℚ) :
    Option ℕ × RateLimiter :=
  match check rl tool user now with
  | (.allowed, rl1) => (some 0, rl1)
  | (.denied, rl1) => (some 1, rl1)
  | (.unknownTool, rl1) => (some 2, rl1)
  | (.keyError, rl1) => (none, rl1)


/-! ### Dictionary lemmas -/

/-- Replace only the in-memory bucket mapping (a mutation not yet persisted). -/
def withState (rl : RateLimiter) (st : BucketMap) : RateLimiter :=
  { rl with state := st }

/-- Replace the bucket mapping and persist it (`_save_state`). -/
def withCommit (rl : RateLimiter) (st : BucketMap) : RateLimiter :=
  { rl with state := st, savedState := st }

theorem withState_state (rl : RateLimiter) (st : BucketMap) :
    (withState rl st).state = st := rfl

theorem withCommit_state (rl : RateLimiter) (st : BucketMap) :
    (withCommit rl st).state = st := rfl

theorem dictGet_dictSet_self {β : Type} (m : List (String × β)) (k : String) (v : β) :
    dictGet (dictSet m k v) k = some v := by
  induction m with
  | nil => simp [dictGet, dictSet]
  | cons p rest ih =>
      obtain ⟨pk, pv⟩ := p
      by_cases h : pk = k
      · simp [dictGet, dictSet, h]
      · simpa [dictGet, dictSet, h] using ih

theorem dictGet_dictSet_ne {β : Type} (m : List (String × β)) (k k' : String) (v : β)
    (h : k ≠ k') : dictGet (dictSet m k v) k' = dictGet m k' := by
  have hk : ¬ (k' = k) := fun hh => h hh.symm
  induction m with
  | nil => simp [dictGet, dictSet, h, hk]
  | cons p rest ih =>
      obtain ⟨pk, pv⟩ := p
      by_cases hp : pk = k
      · subst hp
        simp [dictGet, dictSet, h, hk]
      · by_cases hp' : pk = k'
        · simp [dictGet, dictSet, hp, hp', hk]
        · simpa [dictGet, dictSet, hp, hp'] using ih

theorem dictSet_dictSet {β : Type} (m : List (String × β)) (k : String) (v w : β) :
    dictSet (dictSet m k v) k w = dictSet m k w := by
  induction m with
  | nil => simp [dictSet]
  | cons p rest ih =>
      obtain ⟨pk, pv⟩ := p
      by_cases h : pk = k
      · simp [dictSet, h]
      · simpa [dictSet, h] using ih

theorem dictGet_mem {β : Type} {m : List (String × β)} {k : String} {v : β}
    (h : dictGet m k = some v) : (k, v) ∈ m := by
  induction m with
  | nil => simp [dictGet] at h
  | cons p rest ih =>
      obtain ⟨pk, pv⟩ := p
      by_cases hp : pk = k
      · subst hp
        have hv : pv = v := by simpa [dictGet] using h
        subst hv
        exact List.mem_cons_self _ _
      · simp only [dictGet, hp, ite_false] at h
        exact List.mem_cons_of_mem _ (ih h)

/-! ### Characterizations of the refill step -/

theorem refillBucket_absent (rl : RateLimiter) (tool user : String) (now : ℚ)
    (h : dictGet rl.config tool = none) : refillBucket rl tool user now = rl := by
  unfold refillBucket
  rw [h]

theorem refillBucket_falsy (rl : RateLimiter) (tool user : String) (now : ℚ)
    (h : dictGet rl.config tool = some none) : refillBucket rl tool user now = rl := by
  unfold refillBucket
  rw [h]

theorem refillBucket_new (rl : RateLimiter) (tool user : String) (now : ℚ) (tc : Policy)
    (hc : dictGet rl.config tool = some (some tc))
    (hb : dictGet rl.state (getBucketKey tool user) = none) :
    refillBucket rl tool user now =
      withState rl (dictSet rl.state (getBucketKey tool user) (Bucket.mk tc.capacity now)) := by
  simp only [refillBucket, hc, hb, withState]

theorem refillBucket_existing (rl : RateLimiter) (tool user : String) (now : ℚ)
    (tc : Policy) (b : Bucket)
    (hc : dictGet rl.config tool = some (some tc))
    (hb : dictGet rl.state (getBucketKey tool user) = some b) :
    refillBucket rl tool user now =
      withState rl (dictSet rl.state (getBucketKey tool user)
        (Bucket.mk (min (b.tokens + (now - b.last_refill) * tc.refill_rate) tc.capacity) now)) := by
  simp only [refillBucket, hc, hb, withState]

theorem refillBucket_frame (rl : RateLimiter) (tool user : String) (now : ℚ) :
    (refillBucket rl tool user now).config = rl.config ∧
    (refillBucket rl tool user now).savedConfig = rl.savedConfig ∧
    (refillBucket rl tool user now).savedState = rl.savedState := by
  cases h : dictGet rl.config tool with
  | none => rw [refillBucket_absent rl tool user now h]; exact ⟨rfl, rfl, rfl⟩
  | some v =>
      cases v with
      | none => rw [refillBucket_falsy rl tool user now h]; exact ⟨rfl, rfl, rfl⟩
      | some tc =>
          cases hb : dictGet rl.state (getBucketKey tool user) with
          | none =>
              rw [refillBucket_new rl tool user now tc h hb]
              exact ⟨rfl, rfl, rfl⟩
          | some b =>
              rw [refillBucket_existing rl tool user now tc b h hb]
              exact ⟨rfl, rfl, rfl⟩

/-! ### Characterizations of check -/

theorem check_unknown (rl : RateLimiter) (tool user : String) (now : ℚ)
    (h : dictGet rl.config tool = none) :
    check rl tool user now = (.unknownTool, rl) := by
  unfold check
  rw [if_pos h]

theorem check_new (rl : RateLimiter) (tool user : String) (now : ℚ) (tc : Policy)
    (hc : dictGet rl.config tool = some (some tc))
    (hb : dictGet rl.state (getBucketKey tool user) = none) :
    check rl tool user now =
      if 1 ≤ tc.capacity then
        (.allowed, withCommit rl
          (dictSet rl.state (getBucketKey tool user) (Bucket.mk (tc.capacity - 1) now)))
      else
        (.denied, withState rl
          (dictSet rl.state (getBucketKey tool user) (Bucket.mk tc.capacity now))) := by
  unfold check
  rw [if_neg (by rw [hc]; exact fun hh => Option.noConfusion hh)]
  rw [refillBucket_new rl tool user now tc hc hb]
  simp only [withState, withCommit, dictGet_dictSet_self, dictSet_dictSet]

theorem check_existing (rl : RateLimiter) (tool user : String) (now : ℚ)
    (tc : Policy) (b : Bucket)
    (hc : dictGet rl.config tool = some (some tc))
    (hb : dictGet rl.state (getBucketKey tool user) = some b) :
    check rl tool user now =
      if 1 ≤ min (b.tokens + (now - b.last_refill) * tc.refill_rate) tc.capacity then
        (.allowed, withCommit rl (dictSet rl.state (getBucketKey tool user)
          (Bucket.mk (min (b.tokens + (now - b.last_refill) * tc.refill_rate) tc.capacity - 1) now)))
      else
        (.denied, withState rl (dictSet rl.state (getBucketKey tool user)
          (Bucket.mk (min (b.tokens + (now - b.last_refill) * tc.refill_rate) tc.capacity) now))) := by
  unfold check
  rw [if_neg (by rw [hc]; exact fun hh => Option.noConfusion hh)]
  rw [refillBucket_existing rl tool user now tc b hc hb]
  simp only [withState, withCommit, dictGet_dictSet_self, dictSet_dictSet]

theorem check_denied_eq (rl rl1 : RateLimiter) (tool user : String) (now : ℚ)
    (h : check rl tool user now = (.denied, rl1)) :
    rl1 = refillBucket rl tool user now := by
  unfold check at h
  by_cases hc : dictGet rl.config tool = none
  · rw [if_pos hc] at h
    exact absurd (congrArg Prod.fst h) (by simp)
  · rw [if_neg hc] at h
    cases hb : dictGet (refillBucket rl tool user now).state (getBucketKey tool user) with
    | none =>
        simp only [hb] at h
        exact absurd (congrArg Prod.fst h) (by simp)
    | some bucket =>
        simp only [hb] at h
        by_cases ht : 1 ≤ bucket.tokens
        · rw [if_pos ht] at h
          exact absurd (congrArg Prod.fst h) (by simp)
        · rw [if_neg ht] at h
          exact (congrArg Prod.snd h).symm

/-! ### Splitting composite keys -/

theorem stringDataEq {a b : String} (h : a.data = b.data) : a = b := by
  cases a
  cases b
  exact congrArg String.mk h

theorem splitFirstAux_reconstruct :
    ∀ (l acc : List Char) (t u : String),
      splitFirstAux l acc = some (t, u) →
      t.data ++ ':' :: u.data = acc.reverse ++ l := by
  intro l
  induction l with
  | nil => intro acc t u h; simp [splitFirstAux] at h
  | cons c rest ih =>
      intro acc t u h
      by_cases hc : c = ':'
      · subst hc
        unfold splitFirstAux at h
        rw [if_pos rfl] at h
        have h1 := Option.some.inj h
        rw [Prod.mk.injEq] at h1
        obtain ⟨ht, hu⟩ := h1
        rw [← ht, ← hu]
      · simp only [splitFirstAux, hc, ite_false] at h
        have := ih (c :: acc) t u h
        simpa [List.append_assoc] using this

theorem splitFirstColon_reconstruct (key t u : String)
    (h : splitFirstColon key = some (t, u)) : key = t ++ ":" ++ u := by
  have hx := splitFirstAux_reconstruct key.data [] t u h
  apply stringDataEq
  rw [String.data_append, String.data_append]
  simpa using hx.symm

/-! ### The status loops -/

/-- Last-write-wins projection of the second status loop: the token count the
loop leaves for `(tool, user)` given the default already present in the
report. -/
def usersOf (st : BucketMap) (tool user : String) (dflt : Option ℚ) : Option ℚ :=
  match st with
  | [] => dflt
  | (key, b) :: rest =>
      if splitFirstColon key = some (tool, user)
      then usersOf rest tool user (some b.tokens)
      else usersOf rest tool user dflt

theorem usersOf_no_match (st : BucketMap) (tool user : String) (d : Option ℚ)
    (h : ∀ p ∈ st, splitFirstColon p.1 ≠ some (tool, user)) :
    usersOf st tool user d = d := by
  induction st generalizing d with
  | nil => rfl
  | cons p rest ih =>
      obtain ⟨key, b⟩ := p
      have hk : splitFirstColon key ≠ some (tool, user) := h (key, b) (List.mem_cons_self _ _)
      simp only [usersOf, hk, ite_false]
      exact ih d fun q hq => h q (List.mem_cons_of_mem _ hq)

theorem usersOf_iff (st : BucketMap) (tool user : String)
    (hnd : (st.map Prod.fst).Nodup) (v : ℚ) :
    usersOf st tool user none = some v ↔
      ∃ key b, dictGet st key = some b ∧
        splitFirstColon key = some (tool, user) ∧ b.tokens = v := by
  induction st with
  | nil =>
      simp [usersOf, dictGet]
  | cons p rest ih =>
      obtain ⟨key, b⟩ := p
      simp only [List.map_cons, List.nodup_cons] at hnd
      obtain ⟨hkey, hnd'⟩ := hnd
      by_cases hs : splitFirstColon key = some (tool, user)
      · have hnom : ∀ q ∈ rest, splitFirstColon q.1 ≠ some (tool, user) := by
          intro q hq hqs
          apply hkey
          have h1 := splitFirstColon_reconstruct key tool user hs
          have h2 := splitFirstColon_reconstruct q.1 tool user hqs
          rw [h1, ← h2]
          exact List.mem_map_of_mem Prod.fst hq
        constructor
        · intro h
          refine ⟨key, b, ?_, hs, ?_⟩
          · simp [dictGet]
          · simp only [usersOf, hs, ite_true] at h
            rw [usersOf_no_match rest tool user (some b.tokens) hnom] at h
            exact Option.some.inj h
        · rintro ⟨key', b', hget, hs', hv⟩
          have hk1 := splitFirstColon_reconstruct key tool user hs
          have hk2 := splitFirstColon_reconstruct key' tool user hs'
          have hkk : key' = key := by rw [hk1, hk2]
          subst hkk
          have hbb : b = b' := by simpa [dictGet] using hget
          subst hbb
          simp only [usersOf, hs, ite_true]
          rw [usersOf_no_match rest tool user (some b.tokens) hnom]
          exact congrArg some hv
      · simp only [usersOf, hs, ite_false]
        rw [ih hnd']
        constructor
        · rintro ⟨key', b', hget, hs', hv⟩
          refine ⟨key', b', ?_, hs', hv⟩
          have hne : key ≠ key' := by
            intro hkk
            subst hkk
            have : key ∈ rest.map Prod.fst := List.mem_map_of_mem Prod.fst (dictGet_mem hget)
            exact hkey this
          simp only [dictGet, hne, ite_false]
          exact hget
        · rintro ⟨key', b', hget, hs', hv⟩
          by_cases hkk : key = key'
          · subst hkk
            have hbb : b = b' := by simpa [dictGet] using hget
            subst hbb
            exact absurd hs' hs
          · refine ⟨key', b', ?_, hs', hv⟩
            simp only [dictGet, hkk, ite_false] at hget
            exact hget

theorem statusConfigLoop_ok (config : Config)
    (h : ∀ p ∈ config, (p.2).isSome = true) :
    ∃ r, statusConfigLoop config = .ok r ∧
      (∀ tool, dictGet config tool = none → dictGet r tool = none) ∧
      (∀ tool tc, dictGet config tool = some (some tc) →
        dictGet r tool = some (ToolStatus.mk tc.capacity tc.refill_rate [])) := by
  induction config with
  | nil =>
      exact ⟨[], rfl, fun tool _ => rfl, fun tool tc hget => by simp [dictGet] at hget⟩
  | cons p rest ih =>
      obtain ⟨ptool, pval⟩ := p
      have hhead : pval.isSome = true := h (ptool, pval) (List.mem_cons_self _ _)
      cases pval with
      | none => simp at hhead
      | some tc0 =>
          obtain ⟨r, hr, hnone, hsome⟩ := ih fun q hq => h q (List.mem_cons_of_mem _ hq)
          refine ⟨(ptool, ToolStatus.mk tc0.capacity tc0.refill_rate []) :: r, ?_, ?_, ?_⟩
          · simp only [statusConfigLoop]
            rw [hr]
            rfl
          · intro tool hget
            by_cases ht : ptool = tool
            · simp [dictGet, ht] at hget
            · simp only [dictGet, ht, ite_false] at hget ⊢
              exact hnone tool hget
          · intro tool tc hget
            by_cases ht : ptool = tool
            · subst ht
              have : some tc0 = some tc := by simpa [dictGet] using hget
              cases this
              simp [dictGet]
            · simp only [dictGet, ht, ite_false] at hget ⊢
              exact hsome tool tc hget

theorem statusStateLoop_ok (st : BucketMap) (res : List (String × ToolStatus))
    (h : ∀ p ∈ st, (splitFirstColon p.1).isSome = true) :
    ∃ res1, statusStateLoop st res = .ok res1 ∧
      (∀ tool, dictGet res tool = none → dictGet res1 tool = none) ∧
      (∀ tool ts, dictGet res tool = some ts → ∃ ts1,
          dictGet res1 tool = some ts1 ∧
          ts1.capacity = ts.capacity ∧ ts1.refill_rate = ts.refill_rate ∧
          ∀ user, dictGet ts1.users user = usersOf st tool user (dictGet ts.users user)) := by
  induction st generalizing res with
  | nil =>
      refine ⟨res, rfl, fun tool hget => hget, fun tool ts hget => ⟨ts, hget, rfl, rfl, ?_⟩⟩
      intro user
      rfl
  | cons p rest ih =>
      obtain ⟨key, b⟩ := p
      have hhead : (splitFirstColon key).isSome = true := h (key, b) (List.mem_cons_self _ _)
      have htail : ∀ q ∈ rest, (splitFirstColon q.1).isSome = true :=
        fun q hq => h q (List.mem_cons_of_mem _ hq)
      cases hsp : splitFirstColon key with
      | none => rw [hsp] at hhead; simp at hhead
      | some tu =>
          obtain ⟨t0, u0⟩ := tu
          cases hres : dictGet res t0 with
          | none =>
              obtain ⟨res1, hr, hnone, hsome⟩ := ih res htail
              refine ⟨res1, ?_, hnone, ?_⟩
              · simp [statusStateLoop, hsp, hres, hr]
              · intro tool ts hget
                obtain ⟨ts1, hts1, hcap, hrate, husers⟩ := hsome tool ts hget
                refine ⟨ts1, hts1, hcap, hrate, ?_⟩
                intro user
                have hne : ¬ splitFirstColon key = some (tool, user) := by
                  intro hx
                  rw [hx] at hsp
                  cases hsp
                  rw [hres] at hget
                  exact Option.noConfusion hget
                simp only [usersOf, hne, ite_false]
                exact husers user
          | some ts0 =>
              obtain ⟨res1, hr, hnone, hsome⟩ :=
                ih (dictSet res t0 { ts0 with users := dictSet ts0.users u0 b.tokens }) htail
              refine ⟨res1, ?_, ?_, ?_⟩
              · simp [statusStateLoop, hsp, hres, hr]
              · intro tool hget
                apply hnone
                have hne : t0 ≠ tool := by
                  intro hx
                  subst hx
                  rw [hres] at hget
                  exact Option.noConfusion hget
                rw [dictGet_dictSet_ne _ _ _ _ hne]
                exact hget
              · intro tool ts hget
                by_cases ht : tool = t0
                · subst ht
                  have hts : ts = ts0 := by
                    rw [hres] at hget
                    exact (Option.some.injEq _ _ ▸ hget).symm ▸ rfl
                  subst hts
                  obtain ⟨ts1, hts1, hcap, hrate, husers⟩ :=
                    hsome tool { ts with users := dictSet ts.users u0 b.tokens }
                      (dictGet_dictSet_self _ _ _)
                  refine ⟨ts1, hts1, hcap, hrate, ?_⟩
                  intro user
                  by_cases hu : user = u0
                  · subst hu
                    have hcond : splitFirstColon key = some (tool, user) := hsp
                    simp only [usersOf, hcond, ite_true]
                    rw [husers user]
                    rw [dictGet_dictSet_self]
                  · have hcond : ¬ splitFirstColon key = some (tool, user) := by
                      intro hx
                      rw [hx] at hsp
                      cases hsp
                      exact hu rfl
                    simp only [usersOf, hcond, ite_false]
                    rw [husers user]
                    rw [dictGet_dictSet_ne _ _ _ _ fun hx => hu hx.symm]
                · have hne : t0 ≠ tool := fun hx => ht hx.symm
                  obtain ⟨ts1, hts1, hcap, hrate, husers⟩ := hsome tool ts (by
                    rw [dictGet_dictSet_ne _ _ _ _ hne]
                    exact hget)
                  refine ⟨ts1, hts1, hcap, hrate, ?_⟩
                  intro user
                  have hcond : ¬ splitFirstColon key = some (tool, user) := by
                    intro hx
                    rw [hx] at hsp
                    cases hsp
                    exact ht rfl
                  simp only [usersOf, hcond, ite_false]
                  exact husers user

theorem check_keyError (rl : RateLimiter) (tool user : String) (now : ℚ)
    (hc : ¬ dictGet rl.config tool = none)
    (hb : dictGet (refillBucket rl tool user now).state (getBucketKey tool user) = none) :
    check rl tool user now = (.keyError, refillBucket rl tool user now) := by
  unfold check
  rw [if_neg hc]
  simp only [hb]

theorem check_found (rl : RateLimiter) (tool user : String) (now : ℚ) (bucket : Bucket)
    (hc : ¬ dictGet rl.config tool = none)
    (hb : dictGet (refillBucket rl tool user now).state (getBucketKey tool user) = some bucket) :
    check rl tool user now =
      if 1 ≤ bucket.tokens then
        (.allowed, withCommit (refillBucket rl tool user now)
          (dictSet (refillBucket rl tool user now).state (getBucketKey tool user)
            (Bucket.mk (bucket.tokens - 1) bucket.last_refill)))
      else (.denied, refillBucket rl tool user now) := by
  unfold check
  rw [if_neg hc]
  simp only [hb]
  rfl

theorem check_fst_ne_unknownTool (rl : RateLimiter) (tool user : String) (now : ℚ)
    (hc : ¬ dictGet rl.config tool = none) :
    (check rl tool user now).1 ≠ CheckResult.unknownTool := by
  cases hb : dictGet (refillBucket rl tool user now).state (getBucketKey tool user) with
  | none =>
      rw [check_keyError rl tool user now hc hb]
      exact fun h => CheckResult.noConfusion h
  | some bucket =>
      rw [check_found rl tool user now bucket hc hb]
      by_cases ht : 1 ≤ bucket.tokens
      · rw [if_pos ht]; exact fun h => CheckResult.noConfusion h
      · rw [if_neg ht]; exact fun h => CheckResult.noConfusion h

/-! ### The claims -/

/-- C1 counterexample.  The claim asserts that a check on an existing bucket
with `now` earlier than the bucket's `last_refill` treats the negative elapsed
time as 0, so tokens never decrease across the refill.  The code applies
`elapsed` as computed: with policy capacity 10 and refill rate 1, a stored
bucket of 5 tokens last refilled at time 10, a check at time 0 leaves the
bucket at -5 tokens, strictly below the 5 it held before. -/
theorem C1_counterexample :
    (check (RateLimiter.load [("t", some (Policy.mk 10 1))] [("t:u", Bucket.mk 5 10)])
        "t" "u" 0).2.state = [("t:u", Bucket.mk (-5) 0)] ∧
    (-5 : ℚ) < 5 := by
  have hkey : ("t" ++ ":" ++ "u" : String) = "t:u" := rfl
  norm_num [check, refillBucket, dictGet, dictSet, getBucketKey, RateLimiter.load,
    min_def, hkey, Option.some_ne_none]

/-- C1 (amended): the refill step uses `elapsed = now - last_refill` exactly as
computed, with no clamp at 0.  On an existing bucket, refill stores
`min (tokens + elapsed * refill_rate) capacity` with `last_refill = now`; under
a clock regression (`now < last_refill`) with a positive refill rate and
`tokens ≤ capacity`, the token count after the refill is strictly lower than
before. -/
theorem C1_theorem (rl : RateLimiter) (tool user : String) (now : ℚ)
    (tc : Policy) (b : Bucket)
    (hc : dictGet rl.config tool = some (some tc))
    (hb : dictGet rl.state (getBucketKey tool user) = some b)
    (hreg : now < b.last_refill) (hrate : 0 < tc.refill_rate) :
    dictGet (refillBucket rl tool user now).state (getBucketKey tool user)
      = some (Bucket.mk (min (b.tokens + (now - b.last_refill) * tc.refill_rate)
          tc.capacity) now) ∧
    min (b.tokens + (now - b.last_refill) * tc.refill_rate) tc.capacity < b.tokens := by
  constructor
  · rw [refillBucket_existing rl tool user now tc b hc hb]
    exact dictGet_dictSet_self _ _ _
  · have hneg : (now - b.last_refill) * tc.refill_rate < 0 :=
      mul_neg_of_neg_of_pos (by linarith) hrate
    calc min (b.tokens + (now - b.last_refill) * tc.refill_rate) tc.capacity
        ≤ b.tokens + (now - b.last_refill) * tc.refill_rate := min_le_left _ _
      _ < b.tokens := by linarith

/-- C1 witness: the amended refill behavior evaluated at the counterexample
input. -/
theorem C1_witness :
    (dictGet (RateLimiter.load [("t", some (Policy.mk 10 1))]
        [("t:u", Bucket.mk 5 10)]).config "t" = some (some (Policy.mk 10 1))) ∧
    (dictGet (RateLimiter.load [("t", some (Policy.mk 10 1))]
        [("t:u", Bucket.mk 5 10)]).state (getBucketKey "t" "u") = some (Bucket.mk 5 10)) ∧
    ((0 : ℚ) < (Bucket.mk (5 : ℚ) 10).last_refill) ∧
    ((0 : ℚ) < (Policy.mk (10 : ℚ) 1).refill_rate) ∧
    (dictGet (refillBucket (RateLimiter.load [("t", some (Policy.mk 10 1))]
          [("t:u", Bucket.mk 5 10)]) "t" "u" 0).state (getBucketKey "t" "u")
        = some (Bucket.mk (min ((Bucket.mk (5 : ℚ) 10).tokens
            + ((0 : ℚ) - (Bucket.mk (5 : ℚ) 10).last_refill)
              * (Policy.mk (10 : ℚ) 1).refill_rate) (Policy.mk (10 : ℚ) 1).capacity) 0) ∧
      min ((Bucket.mk (5 : ℚ) 10).tokens + ((0 : ℚ) - (Bucket.mk (5 : ℚ) 10).last_refill)
          * (Policy.mk (10 : ℚ) 1).refill_rate) (Policy.mk (10 : ℚ) 1).capacity
        < (Bucket.mk (5 : ℚ) 10).tokens) :=
  ⟨by decide, by decide, by decide, by decide,
    C1_theorem (RateLimiter.load [("t", some (Policy.mk 10 1))] [("t:u", Bucket.mk 5 10)])
      "t" "u" 0 (Policy.mk 10 1) (Bucket.mk 5 10)
      (by decide) (by decide) (by decide) (by decide)⟩

/-- C2 counterexample.  The claim asserts `0 ≤ tokens ≤ capacity` for the
owning tool's current capacity after every operation, setLimit included.
Reachable trace: set_limit t 5 0; check t u (bucket left at 4 tokens);
set_limit t 2 0.  The bucket still holds 4 tokens while the current capacity is
2, so `tokens ≤ capacity` fails after the setLimit. -/
theorem C2_counterexample :
    dictGet (set_limit ((check (set_limit (RateLimiter.load [] []) "t" 5 0) "t" "u" 0).2)
        "t" 2 0).state "t:u" = some (Bucket.mk 4 0) ∧
    dictGet (set_limit ((check (set_limit (RateLimiter.load [] []) "t" 5 0) "t" "u" 0).2)
        "t" 2 0).config "t" = some (some (Policy.mk 2 0)) ∧
    ¬ ((4 : ℚ) ≤ 2) := by
  have hkey : ("t" ++ ":" ++ "u" : String) = "t:u" := rfl
  have hne : ¬ (("t:u" : String) = "t") := by decide
  norm_num [check, refillBucket, dictGet, dictSet, getBucketKey, RateLimiter.load,
    set_limit, min_def, hkey, hne, Option.some_ne_none]

/-- C2 (amended): after a `check` the checked bucket satisfies
`0 ≤ tokens ≤ capacity`, provided the policy is a well-formed one
(`1 ≤ capacity`, `0 ≤ refill_rate`) and time did not regress below the stored
`last_refill` (the bucket, when present, holds nonnegative tokens); after
`reset` no bucket exists at all.  A `set_limit` that lowers capacity leaves
already-accumulated tokens above the new capacity until the next refill clamps
them, so the original claim's setLimit clause is dropped. -/
theorem C2_theorem (rl : RateLimiter) (tool user : String) (now : ℚ) (tc : Policy)
    (hc : dictGet rl.config tool = some (some tc))
    (hcap : 1 ≤ tc.capacity) (hrate : 0 ≤ tc.refill_rate)
    (hold : ∀ b, dictGet rl.state (getBucketKey tool user) = some b →
        0 ≤ b.tokens ∧ b.last_refill ≤ now) :
    (∀ b1, dictGet (check rl tool user now).2.state (getBucketKey tool user) = some b1 →
        0 ≤ b1.tokens ∧ b1.tokens ≤ tc.capacity) ∧
    (reset rl).state = [] ∧ (reset rl).savedState = [] := by
  refine ⟨?_, rfl, rfl⟩
  intro b1 hb1
  cases hb : dictGet rl.state (getBucketKey tool user) with
  | none =>
      have hE := check_new rl tool user now tc hc hb
      rw [if_pos hcap] at hE
      rw [hE] at hb1
      have hx : some (Bucket.mk (tc.capacity - 1) now) = some b1 := by
        rw [← dictGet_dictSet_self rl.state (getBucketKey tool user)
          (Bucket.mk (tc.capacity - 1) now)]
        exact hb1
      cases Option.some.inj hx
      constructor
      · simp only []
        linarith
      · simp only []
        linarith
  | some b =>
      obtain ⟨htok, htime⟩ := hold b hb
      have hE := check_existing rl tool user now tc b hc hb
      have hmin_le : min (b.tokens + (now - b.last_refill) * tc.refill_rate) tc.capacity
          ≤ tc.capacity := min_le_right _ _
      have hmin_nonneg : 0 ≤ min (b.tokens + (now - b.last_refill) * tc.refill_rate)
          tc.capacity := by
        apply le_min
        · have : 0 ≤ (now - b.last_refill) * tc.refill_rate :=
            mul_nonneg (by linarith) hrate
          linarith
        · linarith
      by_cases hdec : 1 ≤ min (b.tokens + (now - b.last_refill) * tc.refill_rate) tc.capacity
      · rw [if_pos hdec] at hE
        rw [hE] at hb1
        have hx : some (Bucket.mk (min (b.tokens + (now - b.last_refill) * tc.refill_rate)
            tc.capacity - 1) now) = some b1 := by
          rw [← dictGet_dictSet_self rl.state (getBucketKey tool user)
            (Bucket.mk (min (b.tokens + (now - b.last_refill) * tc.refill_rate)
              tc.capacity - 1) now)]
          exact hb1
        cases Option.some.inj hx
        constructor
        · simp only []
          linarith
        · simp only []
          linarith
      · rw [if_neg hdec] at hE
        rw [hE] at hb1
        have hx : some (Bucket.mk (min (b.tokens + (now - b.last_refill) * tc.refill_rate)
            tc.capacity) now) = some b1 := by
          rw [← dictGet_dictSet_self rl.state (getBucketKey tool user)
            (Bucket.mk (min (b.tokens + (now - b.last_refill) * tc.refill_rate)
              tc.capacity) now)]
          exact hb1
        cases Option.some.inj hx
        exact ⟨hmin_nonneg, hmin_le⟩

/-- C2 witness: the amended bound evaluated on a concrete existing bucket. -/
theorem C2_witness :
    (dictGet (RateLimiter.load [("t", some (Policy.mk 5 1))]
        [("t:u", Bucket.mk 2 0)]).config "t" = some (some (Policy.mk 5 1))) ∧
    ((1 : ℚ) ≤ (Policy.mk (5 : ℚ) 1).capacity) ∧
    ((0 : ℚ) ≤ (Policy.mk (5 : ℚ) 1).refill_rate) ∧
    ((∀ b1, dictGet (check (RateLimiter.load [("t", some (Policy.mk 5 1))]
          [("t:u", Bucket.mk 2 0)]) "t" "u" 3).2.state (getBucketKey "t" "u") = some b1 →
        0 ≤ b1.tokens ∧ b1.tokens ≤ (Policy.mk (5 : ℚ) 1).capacity) ∧
      (reset (RateLimiter.load [("t", some (Policy.mk 5 1))]
          [("t:u", Bucket.mk 2 0)])).state = [] ∧
      (reset (RateLimiter.load [("t", some (Policy.mk 5 1))]
          [("t:u", Bucket.mk 2 0)])).savedState = []) :=
  ⟨by decide, by decide, by decide,
    C2_theorem (RateLimiter.load [("t", some (Policy.mk 5 1))] [("t:u", Bucket.mk 2 0)])
      "t" "u" 3 (Policy.mk 5 1) (by decide) (by decide) (by decide)
      (by
        intro b hb
        have hb2 : (some (Bucket.mk (2 : ℚ) 0) : Option Bucket) = some b := by
          rw [← hb]
          decide
        have hbb := Option.some.inj hb2
        subst hbb
        exact ⟨by decide, by decide⟩)⟩

/-- C3: a check that returns Denied does not commit the refill: the durable
bucket mapping, the durable policy mapping and the in-memory policy mapping are
all unchanged (only the in-memory bucket mapping carries the uncommitted
refill). -/
theorem C3_theorem (rl rl1 : RateLimiter) (tool user : String) (now : ℚ)
    (h : check rl tool user now = (.denied, rl1)) :
    rl1.savedState = rl.savedState ∧ rl1.savedConfig = rl.savedConfig ∧
    rl1.config = rl.config := by
  have he := check_denied_eq rl rl1 tool user now h
  subst he
  obtain ⟨h1, h2, h3⟩ := refillBucket_frame rl tool user now
  exact ⟨h3, h2, h1⟩

/-- C3 witness: a concrete denied check (capacity 1, refill rate 1, an empty
bucket checked half a second later) leaves the durable state untouched. -/
theorem C3_witness :
    (check (RateLimiter.load [("t", some (Policy.mk 1 1))] [("t:u", Bucket.mk 0 0)])
        "t" "u" (1 / 2)
      = (CheckResult.denied,
          (check (RateLimiter.load [("t", some (Policy.mk 1 1))] [("t:u", Bucket.mk 0 0)])
            "t" "u" (1 / 2)).2)) ∧
    ((check (RateLimiter.load [("t", some (Policy.mk 1 1))] [("t:u", Bucket.mk 0 0)])
          "t" "u" (1 / 2)).2.savedState
        = (RateLimiter.load [("t", some (Policy.mk 1 1))] [("t:u", Bucket.mk 0 0)]).savedState ∧
      (check (RateLimiter.load [("t", some (Policy.mk 1 1))] [("t:u", Bucket.mk 0 0)])
          "t" "u" (1 / 2)).2.savedConfig
        = (RateLimiter.load [("t", some (Policy.mk 1 1))] [("t:u", Bucket.mk 0 0)]).savedConfig ∧
      (check (RateLimiter.load [("t", some (Policy.mk 1 1))] [("t:u", Bucket.mk 0 0)])
          "t" "u" (1 / 2)).2.config
        = (RateLimiter.load [("t", some (Policy.mk 1 1))] [("t:u", Bucket.mk 0 0)]).config) :=
  ⟨by
    have hkey : ("t" ++ ":" ++ "u" : String) = "t:u" := rfl
    norm_num [check, refillBucket, dictGet, dictSet, getBucketKey, RateLimiter.load,
      min_def, hkey, Option.some_ne_none],
    C3_theorem (RateLimiter.load [("t", some (Policy.mk 1 1))] [("t:u", Bucket.mk 0 0)])
      (check (RateLimiter.load [("t", some (Policy.mk 1 1))] [("t:u", Bucket.mk 0 0)])
        "t" "u" (1 / 2)).2 "t" "u" (1 / 2)
      (by
        have hkey : ("t" ++ ":" ++ "u" : String) = "t:u" := rfl
        norm_num [check, refillBucket, dictGet, dictSet, getBucketKey, RateLimiter.load,
          min_def, hkey, Option.some_ne_none])⟩

/-- C4: check raises the unknown-tool failure exactly when the tool has no
entry in the policy mapping; in that case the limiter is completely untouched;
and at the command boundary the failure maps to exit code 2 while denial maps
to 1 and admission to 0. -/
theorem C4_theorem (rl : RateLimiter) (tool user : String) (now : ℚ) :
    ((check rl tool user now).1 = CheckResult.unknownTool ↔ dictGet rl.config tool = none) ∧
    (dictGet rl.config tool = none → (check rl tool user now).2 = rl) ∧
    ((check rl tool user now).1 = CheckResult.unknownTool →
      (cmd_check rl tool user now).1 = some 2) ∧
    ((check rl tool user now).1 = CheckResult.denied →
      (cmd_check rl tool user now).1 = some 1) ∧
    ((check rl tool user now).1 = CheckResult.allowed →
      (cmd_check rl tool user now).1 = some 0) := by
  have hcmd : ∀ r rl2, check rl tool user now = (r, rl2) →
      (cmd_check rl tool user now).1 =
        (match r with
          | CheckResult.allowed => some 0
          | CheckResult.denied => some 1
          | CheckResult.unknownTool => some 2
          | CheckResult.keyError => none) := by
    intro r rl2 hx
    unfold cmd_check
    rw [hx]
    cases r <;> rfl
  refine ⟨?_, ?_, ?_, ?_, ?_⟩
  · constructor
    · intro h
      by_cases hc : dictGet rl.config tool = none
      · exact hc
      · exact absurd h (check_fst_ne_unknownTool rl tool user now hc)
    · intro hc
      rw [check_unknown rl tool user now hc]
  · intro hc
    rw [check_unknown rl tool user now hc]
  · intro h
    rcases hx : check rl tool user now with ⟨r, rl2⟩
    rw [hx] at h
    have h2 := hcmd r rl2 hx
    cases r <;> simp_all
  · intro h
    rcases hx : check rl tool user now with ⟨r, rl2⟩
    rw [hx] at h
    have h2 := hcmd r rl2 hx
    cases r <;> simp_all
  · intro h
    rcases hx : check rl tool user now with ⟨r, rl2⟩
    rw [hx] at h
    have h2 := hcmd r rl2 hx
    cases r <;> simp_all

/-- C4 witness: the unknown-tool branch and the exit codes evaluated on
concrete limiters. -/
theorem C4_witness :
    (dictGet (RateLimiter.load [("t", some (Policy.mk 1 0))] []).config "x" = none) ∧
    ((check (RateLimiter.load [("t", some (Policy.mk 1 0))] []) "x" "u" 0).1
        = CheckResult.unknownTool ↔
      dictGet (RateLimiter.load [("t", some (Policy.mk 1 0))] []).config "x" = none) ∧
    ((check (RateLimiter.load [("t", some (Policy.mk 1 0))] []) "x" "u" 0).2
      = RateLimiter.load [("t", some (Policy.mk 1 0))] []) ∧
    ((cmd_check (RateLimiter.load [("t", some (Policy.mk 1 0))] []) "x" "u" 0).1 = some 2) :=
  ⟨by decide,
    (C4_theorem (RateLimiter.load [("t", some (Policy.mk 1 0))] []) "x" "u" 0).1,
    (C4_theorem (RateLimiter.load [("t", some (Policy.mk 1 0))] []) "x" "u" 0).2.1 (by decide),
    (C4_theorem (RateLimiter.load [("t", some (Policy.mk 1 0))] []) "x" "u" 0).2.2.1 (by decide)⟩

/-- C5: a first check for a (tool, user) pair with a policy of capacity at
least 1 and no existing bucket is Allowed: the bucket is created full at `now`,
receives no further refill in the same call whatever the refill rate, is
debited one token and persisted, leaving `capacity - 1` tokens with
`last_refill = now`. -/
theorem C5_theorem (rl : RateLimiter) (tool user : String) (now : ℚ) (tc : Policy)
    (hc : dictGet rl.config tool = some (some tc))
    (hcap : 1 ≤ tc.capacity)
    (hb : dictGet rl.state (getBucketKey tool user) = none) :
    (check rl tool user now).1 = CheckResult.allowed ∧
    dictGet (check rl tool user now).2.state (getBucketKey tool user)
      = some (Bucket.mk (tc.capacity - 1) now) ∧
    (check rl tool user now).2.savedState = (check rl tool user now).2.state := by
  have hE := check_new rl tool user now tc hc hb
  rw [if_pos hcap] at hE
  rw [hE]
  exact ⟨rfl, dictGet_dictSet_self _ _ _, rfl⟩

/-- C5 witness: a fresh pair under capacity 3 and a nonzero refill rate is
admitted with 2 tokens left. -/
theorem C5_witness :
    (dictGet (RateLimiter.load [("t", some (Policy.mk 3 7))] []).config "t"
      = some (some (Policy.mk 3 7))) ∧
    ((1 : ℚ) ≤ (Policy.mk (3 : ℚ) 7).capacity) ∧
    (dictGet (RateLimiter.load [("t", some (Policy.mk 3 7))] []).state
        (getBucketKey "t" "u") = none) ∧
    ((check (RateLimiter.load [("t", some (Policy.mk 3 7))] []) "t" "u" 9).1
        = CheckResult.allowed ∧
      dictGet (check (RateLimiter.load [("t", some (Policy.mk 3 7))] []) "t" "u" 9).2.state
          (getBucketKey "t" "u")
        = some (Bucket.mk ((Policy.mk (3 : ℚ) 7).capacity - 1) 9) ∧
      (check (RateLimiter.load [("t", some (Policy.mk 3 7))] []) "t" "u" 9).2.savedState
        = (check (RateLimiter.load [("t", some (Policy.mk 3 7))] []) "t" "u" 9).2.state) :=
  ⟨by decide, by decide, by decide,
    C5_theorem (RateLimiter.load [("t", some (Policy.mk 3 7))] []) "t" "u" 9
      (Policy.mk 3 7) (by decide) (by decide) (by decide)⟩

/-- C6: set_limit overwrites only the named tool's policy (persisting the
config), touches no bucket state, and the very next refill computation for
that tool reads the new capacity and refill rate. -/
theorem C6_theorem (rl : RateLimiter) (tool : String) (c r : ℚ) :
    (set_limit rl tool c r).state = rl.state ∧
    (set_limit rl tool c r).savedState = rl.savedState ∧
    dictGet (set_limit rl tool c r).config tool = some (some (Policy.mk c r)) ∧
    (set_limit rl tool c r).savedConfig = (set_limit rl tool c r).config ∧
    (∀ t, t ≠ tool → dictGet (set_limit rl tool c r).config t = dictGet rl.config t) ∧
    (∀ user now b, dictGet rl.state (getBucketKey tool user) = some b →
        dictGet (refillBucket (set_limit rl tool c r) tool user now).state
            (getBucketKey tool user)
          = some (Bucket.mk (min (b.tokens + (now - b.last_refill) * r) c) now)) := by
  refine ⟨rfl, rfl, dictGet_dictSet_self _ _ _, rfl, ?_, ?_⟩
  · intro t ht
    exact dictGet_dictSet_ne _ _ _ _ fun hx => ht hx.symm
  · intro user now b hb
    have hE := refillBucket_existing (set_limit rl tool c r) tool user now
      (Policy.mk c r) b (dictGet_dictSet_self _ _ _) hb
    rw [hE]
    exact dictGet_dictSet_self _ _ _

/-- C6 witness: lowering the policy to capacity 2, rate 3 leaves the stored
bucket untouched and the next refill uses the new numbers. -/
theorem C6_witness :
    (("x" : String) ≠ "t") ∧
    (dictGet (RateLimiter.load [("t", some (Policy.mk 5 0))]
        [("t:u", Bucket.mk 4 0)]).state (getBucketKey "t" "u") = some (Bucket.mk 4 0)) ∧
    ((set_limit (RateLimiter.load [("t", some (Policy.mk 5 0))] [("t:u", Bucket.mk 4 0)])
        "t" 2 3).state
      = (RateLimiter.load [("t", some (Policy.mk 5 0))] [("t:u", Bucket.mk 4 0)]).state) ∧
    (dictGet (set_limit (RateLimiter.load [("t", some (Policy.mk 5 0))]
        [("t:u", Bucket.mk 4 0)]) "t" 2 3).config "t" = some (some (Policy.mk 2 3))) ∧
    (dictGet (set_limit (RateLimiter.load [("t", some (Policy.mk 5 0))]
          [("t:u", Bucket.mk 4 0)]) "t" 2 3).config "x"
      = dictGet (RateLimiter.load [("t", some (Policy.mk 5 0))]
          [("t:u", Bucket.mk 4 0)]).config "x") ∧
    (dictGet (refillBucket (set_limit (RateLimiter.load [("t", some (Policy.mk 5 0))]
          [("t:u", Bucket.mk 4 0)]) "t" 2 3) "t" "u" 1).state (getBucketKey "t" "u")
      = some (Bucket.mk (min ((Bucket.mk (4 : ℚ) 0).tokens
          + ((1 : ℚ) - (Bucket.mk (4 : ℚ) 0).last_refill) * 3) 2) 1)) :=
  ⟨by decide, by decide,
    (C6_theorem (RateLimiter.load [("t", some (Policy.mk 5 0))] [("t:u", Bucket.mk 4 0)])
      "t" 2 3).1,
    (C6_theorem (RateLimiter.load [("t", some (Policy.mk 5 0))] [("t:u", Bucket.mk 4 0)])
      "t" 2 3).2.2.1,
    (C6_theorem (RateLimiter.load [("t", some (Policy.mk 5 0))] [("t:u", Bucket.mk 4 0)])
      "t" 2 3).2.2.2.2.1 "x" (by decide),
    (C6_theorem (RateLimiter.load [("t", some (Policy.mk 5 0))] [("t:u", Bucket.mk 4 0)])
      "t" 2 3).2.2.2.2.2 "u" 1 (Bucket.mk 4 0) (by decide)⟩

/-- C7: reset deletes every bucket, persists the empty bucket mapping, leaves
both policy mappings untouched, and any pair whose (well-formed, capacity at
least 1) policy exists is Allowed on the next check. -/
theorem C7_theorem (rl : RateLimiter) :
    (reset rl).state = [] ∧ (reset rl).savedState = [] ∧
    (reset rl).config = rl.config ∧ (reset rl).savedConfig = rl.savedConfig ∧
    ∀ tool user now tc, dictGet rl.config tool = some (some tc) → 1 ≤ tc.capacity →
      (check (reset rl) tool user now).1 = CheckResult.allowed := by
  refine ⟨rfl, rfl, rfl, rfl, ?_⟩
  intro tool user now tc hc hcap
  have hc1 : dictGet (reset rl).config tool = some (some tc) := hc
  have hb : dictGet (reset rl).state (getBucketKey tool user) = none := rfl
  have hE := check_new (reset rl) tool user now tc hc1 hb
  rw [if_pos hcap] at hE
  rw [hE]

/-- C7 witness: an exhausted pair (0 tokens, rate 0, previously denied) is
admitted again right after reset. -/
theorem C7_witness :
    ((check (RateLimiter.load [("t", some (Policy.mk 1 0))] [("t:u", Bucket.mk 0 0)])
        "t" "u" 5).1 = CheckResult.denied) ∧
    (dictGet (RateLimiter.load [("t", some (Policy.mk 1 0))]
        [("t:u", Bucket.mk 0 0)]).config "t" = some (some (Policy.mk 1 0))) ∧
    ((1 : ℚ) ≤ (Policy.mk (1 : ℚ) 0).capacity) ∧
    ((reset (RateLimiter.load [("t", some (Policy.mk 1 0))] [("t:u", Bucket.mk 0 0)])).state
        = [] ∧
      (reset (RateLimiter.load [("t", some (Policy.mk 1 0))]
          [("t:u", Bucket.mk 0 0)])).savedState = [] ∧
      (reset (RateLimiter.load [("t", some (Policy.mk 1 0))]
            [("t:u", Bucket.mk 0 0)])).config
        = (RateLimiter.load [("t", some (Policy.mk 1 0))] [("t:u", Bucket.mk 0 0)]).config ∧
      (reset (RateLimiter.load [("t", some (Policy.mk 1 0))]
            [("t:u", Bucket.mk 0 0)])).savedConfig
        = (RateLimiter.load [("t", some (Policy.mk 1 0))]
            [("t:u", Bucket.mk 0 0)]).savedConfig ∧
      ∀ tool user now tc,
        dictGet (RateLimiter.load [("t", some (Policy.mk 1 0))]
            [("t:u", Bucket.mk 0 0)]).config tool = some (some tc) → 1 ≤ tc.capacity →
        (check (reset (RateLimiter.load [("t", some (Policy.mk 1 0))]
            [("t:u", Bucket.mk 0 0)])) tool user now).1 = CheckResult.allowed) :=
  ⟨by
    have hkey : ("t" ++ ":" ++ "u" : String) = "t:u" := rfl
    norm_num [check, refillBucket, dictGet, dictSet, getBucketKey, RateLimiter.load,
      min_def, hkey, Option.some_ne_none],
    by decide, by decide,
    C7_theorem (RateLimiter.load [("t", some (Policy.mk 1 0))] [("t:u", Bucket.mk 0 0)])⟩

/-- C8: status returns, for every tool carrying a well-formed policy, that
tool's capacity and refill rate together with a per-user mapping of the stored
(last persisted, never refilled) token counts, each bucket entry attributed to
the user obtained by splitting its composite key at the first colon only.
Hypotheses: every stored policy value is a non-empty object, every bucket key
contains a colon (both hold for engine-written documents) and the bucket keys
are distinct. -/
theorem C8_theorem (rl : RateLimiter)
    (hconf : ∀ p ∈ rl.config, (p.2).isSome = true)
    (hkeys : ∀ p ∈ rl.state, (splitFirstColon p.1).isSome = true)
    (hnd : (rl.state.map Prod.fst).Nodup) :
    ∃ r, status rl = .ok r ∧
      ∀ tool tc, dictGet rl.config tool = some (some tc) →
        ∃ ts, dictGet r tool = some ts ∧
          ts.capacity = tc.capacity ∧ ts.refill_rate = tc.refill_rate ∧
          ∀ user v, (dictGet ts.users user = some v ↔
            ∃ key b, dictGet rl.state key = some b ∧
              splitFirstColon key = some (tool, user) ∧ b.tokens = v) := by
  obtain ⟨r0, hr0, _, hsome0⟩ := statusConfigLoop_ok rl.config hconf
  obtain ⟨r1, hr1, _, hsome1⟩ := statusStateLoop_ok rl.state r0 hkeys
  refine ⟨r1, ?_, ?_⟩
  · unfold status
    rw [hr0]
    exact hr1
  · intro tool tc hc
    have h0 := hsome0 tool tc hc
    obtain ⟨ts1, hts1, hcap, hrate, husers⟩ := hsome1 tool _ h0
    refine ⟨ts1, hts1, hcap, hrate, ?_⟩
    intro user v
    rw [husers user]
    exact usersOf_iff rl.state tool user hnd v

/-- C8 witness: scenario D, two tools and three buckets, one user key itself
containing a colon. -/
theorem C8_witness :
    (∀ p ∈ (RateLimiter.load
        [("t1", some (Policy.mk 5 1)), ("t2", some (Policy.mk 10 2))]
        [("t1:u1", Bucket.mk 4 0), ("t2:u1", Bucket.mk 9 0),
          ("t1:u2:x", Bucket.mk 2 0)]).config, (p.2).isSome = true) ∧
    (∀ p ∈ (RateLimiter.load
        [("t1", some (Policy.mk 5 1)), ("t2", some (Policy.mk 10 2))]
        [("t1:u1", Bucket.mk 4 0), ("t2:u1", Bucket.mk 9 0),
          ("t1:u2:x", Bucket.mk 2 0)]).state, (splitFirstColon p.1).isSome = true) ∧
    (((RateLimiter.load
        [("t1", some (Policy.mk 5 1)), ("t2", some (Policy.mk 10 2))]
        [("t1:u1", Bucket.mk 4 0), ("t2:u1", Bucket.mk 9 0),
          ("t1:u2:x", Bucket.mk 2 0)]).state.map Prod.fst).Nodup) ∧
    (∃ r, status (RateLimiter.load
        [("t1", some (Policy.mk 5 1)), ("t2", some (Policy.mk 10 2))]
        [("t1:u1", Bucket.mk 4 0), ("t2:u1", Bucket.mk 9 0),
          ("t1:u2:x", Bucket.mk 2 0)]) = .ok r ∧
      ∀ tool tc, dictGet (RateLimiter.load
          [("t1", some (Policy.mk 5 1)), ("t2", some (Policy.mk 10 2))]
          [("t1:u1", Bucket.mk 4 0), ("t2:u1", Bucket.mk 9 0),
            ("t1:u2:x", Bucket.mk 2 0)]).config tool = some (some tc) →
        ∃ ts, dictGet r tool = some ts ∧
          ts.capacity = tc.capacity ∧ ts.refill_rate = tc.refill_rate ∧
          ∀ user v, (dictGet ts.users user = some v ↔
            ∃ key b, dictGet (RateLimiter.load
                [("t1", some (Policy.mk 5 1)), ("t2", some (Policy.mk 10 2))]
                [("t1:u1", Bucket.mk 4 0), ("t2:u1", Bucket.mk 9 0),
                  ("t1:u2:x", Bucket.mk 2 0)]).state key = some b ∧
              splitFirstColon key = some (tool, user) ∧ b.tokens = v)) :=
  ⟨by decide, by decide, by decide,
    C8_theorem (RateLimiter.load
        [("t1", some (Policy.mk 5 1)), ("t2", some (Policy.mk 10 2))]
        [("t1:u1", Bucket.mk 4 0), ("t2:u1", Bucket.mk 9 0),
          ("t1:u2:x", Bucket.mk 2 0)])
      (by decide) (by decide) (by decide)⟩

/-- C9: identifiers containing a colon collide: ("a", "b:c") and ("a:b", "c")
are distinct pairs yet share the composite bucket key "a:b:c", so after the
first pair's check admits and debits the shared bucket (capacity 1), the
second pair's check is denied even though its own bucket was never used. -/
theorem C9_theorem :
    getBucketKey "a" "b:c" = getBucketKey "a:b" "c" ∧
    (("a", "b:c") : String × String) ≠ ("a:b", "c") ∧
    (check (RateLimiter.load [("a", some (Policy.mk 1 0)), ("a:b", some (Policy.mk 1 0))] [])
        "a" "b:c" 0).1 = CheckResult.allowed ∧
    (check (check (RateLimiter.load
          [("a", some (Policy.mk 1 0)), ("a:b", some (Policy.mk 1 0))] [])
        "a" "b:c" 0).2 "a:b" "c" 0).1 = CheckResult.denied := by
  refine ⟨by decide, by decide, ?_, ?_⟩ <;>
  · have hk1 : ("a" ++ ":" ++ "b:c" : String) = "a:b:c" := rfl
    have hk2 : ("a:b" ++ ":" ++ "c" : String) = "a:b:c" := rfl
    have hne1 : ¬ (("a" : String) = "a:b") := by decide
    norm_num [check, refillBucket, dictGet, dictSet, getBucketKey, RateLimiter.load,
      min_def, hk1, hk2, hne1, Option.some_ne_none]

/-- C10: under a stored empty (falsy) policy object for a tool, check neither
raises unknown-tool nor returns a decision: the refill step returns without
creating a bucket and the bucket lookup raises an unguarded KeyError (leaving
the limiter as it was); and whenever every stored policy value is a non-empty
object, that KeyError is unreachable. -/
theorem C10_theorem :
    (∀ (rl : RateLimiter) (tool user : String) (now : ℚ),
      dictGet rl.config tool = some none →
        refillBucket rl tool user now = rl ∧
        (dictGet rl.state (getBucketKey tool user) = none →
          check rl tool user now = (CheckResult.keyError, rl))) ∧
    (∀ (rl : RateLimiter) (tool user : String) (now : ℚ),
      (∀ p ∈ rl.config, (p.2).isSome = true) →
        (check rl tool user now).1 ≠ CheckResult.keyError) := by
  constructor
  · intro rl tool user now hc
    have href := refillBucket_falsy rl tool user now hc
    refine ⟨href, ?_⟩
    intro hb
    have hcne : ¬ dictGet rl.config tool = none := by
      rw [hc]
      exact fun h => Option.noConfusion h
    have hb1 : dictGet (refillBucket rl tool user now).state (getBucketKey tool user)
        = none := by
      rw [href]
      exact hb
    rw [check_keyError rl tool user now hcne hb1, href]
  · intro rl tool user now hall
    cases hc : dictGet rl.config tool with
    | none =>
        rw [check_unknown rl tool user now hc]
        exact fun h => CheckResult.noConfusion h
    | some v =>
        have hv : v.isSome = true := hall (tool, v) (dictGet_mem hc)
        cases v with
        | none => simp at hv
        | some tc =>
            have hcne : ¬ dictGet rl.config tool = none := by
              rw [hc]
              exact fun h => Option.noConfusion h
            cases hb : dictGet (refillBucket rl tool user now).state
                (getBucketKey tool user) with
            | none =>
                have hbs : dictGet rl.state (getBucketKey tool user) = none := by
                  cases hbs : dictGet rl.state (getBucketKey tool user) with
                  | none => rfl
                  | some b =>
                      rw [refillBucket_existing rl tool user now tc b hc hbs,
                        withState_state, dictGet_dictSet_self] at hb
                      exact Option.noConfusion hb
                rw [refillBucket_new rl tool user now tc hc hbs,
                  withState_state, dictGet_dictSet_self] at hb
                exact Option.noConfusion hb
            | some bucket =>
                rw [check_found rl tool user now bucket hcne hb]
                by_cases ht : 1 ≤ bucket.tokens
                · rw [if_pos ht]
                  exact fun h => CheckResult.noConfusion h
                · rw [if_neg ht]
                  exact fun h => CheckResult.noConfusion h

/-- C10 witness: the empty-policy limiter hits the KeyError; a limiter whose
only policy is well-formed never does. -/
theorem C10_witness :
    (dictGet (RateLimiter.load [("t", (none : Option Policy))] []).config "t"
      = some none) ∧
    (dictGet (RateLimiter.load [("t", (none : Option Policy))] []).state
      (getBucketKey "t" "u") = none) ∧
    (refillBucket (RateLimiter.load [("t", (none : Option Policy))] []) "t" "u" 0
      = RateLimiter.load [("t", (none : Option Policy))] []) ∧
    (check (RateLimiter.load [("t", (none : Option Policy))] []) "t" "u" 0
      = (CheckResult.keyError, RateLimiter.load [("t", (none : Option Policy))] [])) ∧
    (∀ p ∈ (RateLimiter.load [("t", some (Policy.mk 1 0))] []).config,
      (p.2).isSome = true) ∧
    ((check (RateLimiter.load [("t", some (Policy.mk 1 0))] []) "t" "u" 0).1
      ≠ CheckResult.keyError) :=
  ⟨by decide, by decide,
    (C10_theorem.1 (RateLimiter.load [("t", (none : Option Policy))] []) "t" "u" 0
      (by decide)).1,
    (C10_theorem.1 (RateLimiter.load [("t", (none : Option Policy))] []) "t" "u" 0
      (by decide)).2 (by decide),
    by decide,
    C10_theorem.2 (RateLimiter.load [("t", some (Policy.mk 1 0))] []) "t" "u" 0
      (by decide)⟩

end ToolRateLimiter
